import Mathlib

/-!
Shallow embedding of `src/codeReview/code-review-exercise-1.tsx`.

The source is a React component with two cores:
* a store (`useOrders` / `fetchOrders`): an in-memory order list plus a
  loading flag and an optional error message, updated by asynchronous
  fetch completions;
* a query pipeline (`filteredOrders` / `totalRevenue`): a pure
  filter → sort → aggregate transformation of the fetched orders under
  the three filter criteria (search text, status filter, minimum total).

JS numbers are modelled as rationals (ℚ); JS strings as Lean strings with
lexicographic comparison (the source compares ISO date strings with `>`,
which is code-unit lexicographic, and lower-cases names with
`toLowerCase`, modelled by `Char.toLower`).  Truthiness of the optional
criteria is modelled with `Option`: `none` stands for an absent or empty
value (undefined search text, empty min-total string), `some` for a
present non-empty one.  Asynchronous completions are modelled as explicit
events applied to the store state in resolution order.
-/

namespace OrdersView

/-- The `OrderStatus` union type of the source. -/
inductive OrderStatus
  | pending
  | paid
  | shipped
  | cancelled
deriving DecidableEq

/-- The `Order` interface of the source: `id`, `customerName`, `total`,
`status`, `createdAt` (an ISO string). -/
structure Order where
  id : Int
  customerName : String
  total : ℚ
  status : OrderStatus
  createdAt : String
deriving DecidableEq

/-- The status filter: the literal `"all"` or one concrete status
(the `OrderStatus | "all"` union of the source). -/
inductive StatusFilter
  | all
  | only (s : OrderStatus)
deriving DecidableEq

/-- The filter criteria held by the component: `search` (optional text,
`none` for undefined or empty), `statusFilter`, and `minTotal` (`none`
for the empty string, `some q` for a numeric string of value `q`; the
change handler of the source only stores numeric strings). -/
structure FilterCriteria where
  search : Option String
  statusFilter : StatusFilter
  minTotal : Option ℚ
deriving DecidableEq

/-- Decides whether `needle` occurs at the head of `hay`
(character-list version of a string starting with another). -/
def headMatch : List Char → List Char → Bool
  | [], _ => true
  | _ :: _, [] => false
  | a :: as, b :: bs => a == b && headMatch as bs

/-- Decides whether `needle` occurs contiguously anywhere inside `hay`:
the `String.prototype.includes` test of the source. -/
def subMatch (needle : List Char) : List Char → Bool
  | [] => headMatch needle []
  | c :: rest => headMatch needle (c :: rest) || subMatch needle rest

/-- Lower-cased character list of a string: `s.toLowerCase()`. -/
def lowerChars (s : String) : List Char := s.data.map Char.toLower

/-- `hay.toLowerCase().includes(needle.toLowerCase())` of the source. -/
def lowerContains (needle hay : String) : Bool :=
  subMatch (lowerChars needle) (lowerChars hay)

/-- Truthiness of the optional search text: set and non-empty. -/
def searchTruthy : Option String → Bool
  | none => false
  | some s => !(s == "")

/-- First early return of the source filter:
`search && !order.customerName.toLowerCase().includes(search.toLowerCase())`. -/
def searchRejects (c : FilterCriteria) (o : Order) : Bool :=
  searchTruthy c.search && !(lowerContains (c.search.getD "") o.customerName)

/-- Second early return of the source filter:
`statusFilter !== "all" && order.status !== statusFilter`. -/
def statusRejects (c : FilterCriteria) (o : Order) : Bool :=
  match c.statusFilter with
  | .all => false
  | .only st => o.status != st

/-- Third early return of the source filter:
`minTotal && Number(order.total) < Number(minTotal)`; `minTotal` is
truthy exactly when the stored string is non-empty, i.e. `some q`. -/
def minTotalRejects (c : FilterCriteria) (o : Order) : Bool :=
  match c.minTotal with
  | none => false
  | some q => decide (o.total < q)

/-- The filter callback of the source, with its three early returns. -/
def passesFilter (c : FilterCriteria) (o : Order) : Bool :=
  if searchRejects c o then false
  else if statusRejects c o then false
  else if minTotalRejects c o then false
  else true

/-- Lexicographic strict comparison of character lists, mirroring the
ECMAScript relational comparison of strings (code-unit by code-unit; a
proper short list sorts before any extension of it). -/
def charListLt : List Char → List Char → Bool
  | _, [] => false
  | [], _ :: _ => true
  | a :: as, b :: bs => decide (a < b) || (a == b && charListLt as bs)

/-- The `<` of the source on strings: `a < b` on the character lists. -/
def strLt (a b : String) : Bool := charListLt a.data b.data

/-- The sort comparator of the source, verbatim:
`(a, b) => a.createdAt > b.createdAt ? -1 : 1`. -/
def orderCmp (a b : Order) : Int :=
  if strLt b.createdAt a.createdAt then -1 else 1

/-- Insert an order into a list, placing it before the first element the
comparator orders it ahead of (comparator result negative). -/
def insertByCmp (a : Order) : List Order → List Order
  | [] => [a]
  | b :: l => if orderCmp a b < 0 then a :: b :: l else b :: insertByCmp a l

/-- Comparator-driven sort modelling `Array.prototype.sort` with
`orderCmp`.  The ECMAScript result for this comparator (which never
returns 0) is any comparator-consistent order; the theorems below use
only the implementation-independent guarantees (permutation and
non-strict descending order). -/
def sortOrders : List Order → List Order
  | [] => []
  | a :: l => insertByCmp a (sortOrders l)

/-- The `filteredOrders` memo body of the source: filter then sort. -/
def filteredOrders (orders : List Order) (c : FilterCriteria) : List Order :=
  sortOrders (orders.filter (passesFilter c))

/-- The `totalRevenue` memo body of the source:
`filteredOrders.reduce((sum, order) => sum + order.total, 0)`. -/
def totalRevenue (orders : List Order) (c : FilterCriteria) : ℚ :=
  (filteredOrders orders c).foldl (fun sum o => sum + o.total) 0

theorem charListLt_irrefl (l : List Char) : charListLt l l = false := by
  induction l with
  | nil => rfl
  | cons c cs ih => simp [charListLt, ih, lt_irrefl]

theorem charListLt_asymm : ∀ {a b : List Char},
    charListLt a b = true → charListLt b a = false
  | [], [], h => by simp [charListLt] at h
  | [], _ :: _, _ => rfl
  | _ :: _, [], h => by simp [charListLt] at h
  | x :: xs, y :: ys, h => by
    simp only [charListLt, Bool.or_eq_true, decide_eq_true_eq,
      Bool.and_eq_true, beq_iff_eq] at h
    simp only [charListLt, Bool.or_eq_false_iff, decide_eq_false_iff_not,
      Bool.and_eq_false_iff, beq_eq_false_iff_ne, ne_eq]
    rcases h with h | ⟨hxy, hrest⟩
    · exact ⟨lt_asymm h, Or.inl fun he => absurd h (he ▸ lt_irrefl y)⟩
    · subst hxy
      exact ⟨lt_irrefl x, Or.inr (charListLt_asymm hrest)⟩

theorem charListLt_trans : ∀ {a b c : List Char},
    charListLt a b = true → charListLt b c = true → charListLt a c = true
  | _, _, [], _, h2 => by simp [charListLt] at h2
  | [], _, _ :: _, _, _ => rfl
  | _ :: _, [], _, h1, _ => by simp [charListLt] at h1
  | x :: xs, y :: ys, z :: zs, h1, h2 => by
    simp only [charListLt, Bool.or_eq_true, decide_eq_true_eq,
      Bool.and_eq_true, beq_iff_eq] at h1 h2 ⊢
    rcases h1 with h1 | ⟨hxy, r1⟩
    · rcases h2 with h2 | ⟨hyz, r2⟩
      · exact Or.inl (lt_trans h1 h2)
      · exact Or.inl (hyz ▸ h1)
    · rcases h2 with h2 | ⟨hyz, r2⟩
      · exact Or.inl (hxy ▸ h2)
      · exact Or.inr ⟨hxy.trans hyz, charListLt_trans r1 r2⟩

theorem charListLt_eq_of_not : ∀ {a b : List Char},
    charListLt a b = false → charListLt b a = false → a = b
  | [], [], _, _ => rfl
  | [], _ :: _, h1, _ => by simp [charListLt] at h1
  | _ :: _, [], _, h2 => by simp [charListLt] at h2
  | x :: xs, y :: ys, h1, h2 => by
    simp only [charListLt, Bool.or_eq_false_iff, decide_eq_false_iff_not,
      Bool.and_eq_false_iff, beq_eq_false_iff_ne, ne_eq] at h1 h2
    obtain ⟨hnxy, hr1⟩ := h1
    obtain ⟨hnyx, hr2⟩ := h2
    have hxy : x = y := le_antisymm (le_of_not_lt hnyx) (le_of_not_lt hnxy)
    subst hxy
    have hts : xs = ys := by
      rcases hr1 with hne | hf1
      · exact absurd rfl hne
      · rcases hr2 with hne | hf2
        · exact absurd rfl hne
        · exact charListLt_eq_of_not hf1 hf2
    rw [hts]

theorem charListLt_false_trans {a b c : List Char}
    (h1 : charListLt a b = false) (h2 : charListLt b c = false) :
    charListLt a c = false := by
  by_contra hac
  rw [Bool.not_eq_false] at hac
  rcases hba : charListLt b a with _ | _
  · have hab : a = b := charListLt_eq_of_not h1 hba
    subst hab
    exact absurd hac (by rw [h2]; exact Bool.false_ne_true)
  · rcases hcb : charListLt c b with _ | _
    · have hbc : b = c := charListLt_eq_of_not h2 hcb
      subst hbc
      exact absurd hac (by rw [h1]; exact Bool.false_ne_true)
    · have hca : charListLt c a = true := charListLt_trans hcb hba
      have haa : charListLt a a = true := charListLt_trans hac hca
      rw [charListLt_irrefl] at haa
      exact Bool.false_ne_true haa

theorem insertByCmp_perm (a : Order) (l : List Order) :
    (insertByCmp a l).Perm (a :: l) := by
  induction l with
  | nil => exact List.Perm.refl _
  | cons b t ih =>
    simp only [insertByCmp]
    by_cases hc : orderCmp a b < 0
    · rw [if_pos hc]
    · rw [if_neg hc]
      exact (ih.cons b).trans (List.Perm.swap a b t)

theorem sortOrders_perm (l : List Order) : (sortOrders l).Perm l := by
  induction l with
  | nil => exact List.Perm.refl _
  | cons a t ih =>
    simp only [sortOrders]
    exact (insertByCmp_perm a (sortOrders t)).trans (ih.cons a)

theorem orderCmp_neg_iff (a b : Order) :
    orderCmp a b < 0 ↔ strLt b.createdAt a.createdAt = true := by
  unfold orderCmp
  split <;> simp_all

/-- Descending-by-`createdAt` between an earlier and a later list element:
the later one is not strictly newer. -/
def descCreated (x y : Order) : Prop := strLt x.createdAt y.createdAt = false

theorem sorted_insertByCmp (a : Order) (l : List Order)
    (h : l.Sorted descCreated) : (insertByCmp a l).Sorted descCreated := by
  induction l with
  | nil => simp [insertByCmp]
  | cons b t ih =>
    rw [List.sorted_cons] at h
    obtain ⟨hb, ht⟩ := h
    simp only [insertByCmp]
    by_cases hc : orderCmp a b < 0
    · rw [if_pos hc]
      rw [orderCmp_neg_iff] at hc
      refine List.sorted_cons.2 ⟨?_, List.sorted_cons.2 ⟨hb, ht⟩⟩
      intro y hy
      have hab : descCreated a b := charListLt_asymm hc
      rcases List.mem_cons.1 hy with rfl | hyt
      · exact hab
      · exact charListLt_false_trans hab (hb y hyt)
    · rw [if_neg hc]
      rw [orderCmp_neg_iff] at hc
      rw [Bool.not_eq_true] at hc
      refine List.sorted_cons.2 ⟨?_, ih ht⟩
      intro y hy
      rcases List.mem_cons.1 ((insertByCmp_perm a t).mem_iff.1 hy) with rfl | hyt
      · exact hc
      · exact hb y hyt

theorem sorted_sortOrders (l : List Order) : (sortOrders l).Sorted descCreated := by
  induction l with
  | nil => simp [sortOrders]
  | cons a t ih =>
    simp only [sortOrders]
    exact sorted_insertByCmp a (sortOrders t) ih

theorem searchRejects_eq_false_iff (c : FilterCriteria) (o : Order) :
    searchRejects c o = false ↔
      (searchTruthy c.search = true →
        lowerContains (c.search.getD "") o.customerName = true) := by
  unfold searchRejects
  cases h : searchTruthy c.search <;> simp

theorem statusRejects_eq_false_iff (c : FilterCriteria) (o : Order) :
    statusRejects c o = false ↔
      ∀ st, c.statusFilter = .only st → o.status = st := by
  unfold statusRejects
  cases hsf : c.statusFilter with
  | all => simp
  | only st => simp [bne]

theorem minTotalRejects_eq_false_iff (c : FilterCriteria) (o : Order) :
    minTotalRejects c o = false ↔ ∀ q, c.minTotal = some q → q ≤ o.total := by
  unfold minTotalRejects
  cases hmt : c.minTotal with
  | none => simp
  | some q => simp [not_lt]

theorem passesFilter_eq_true_iff (c : FilterCriteria) (o : Order) :
    passesFilter c o = true ↔
      searchRejects c o = false ∧ statusRejects c o = false ∧
        minTotalRejects c o = false := by
  unfold passesFilter
  cases h1 : searchRejects c o <;> cases h2 : statusRejects c o <;>
    cases h3 : minTotalRejects c o <;> simp

example : lowerContains "bo" "Bob" = true := by decide

example : lowerContains "zzz" "Alice" = false := by decide

example :
    filteredOrders
      [⟨1, "Alice", 10, .paid, "2024-01-01T00:00:00Z"⟩,
       ⟨2, "Bob", 20, .pending, "2024-01-02T00:00:00Z"⟩]
      ⟨none, .all, none⟩
    = [⟨2, "Bob", 20, .pending, "2024-01-02T00:00:00Z"⟩,
       ⟨1, "Alice", 10, .paid, "2024-01-01T00:00:00Z"⟩] := by decide

example :
    totalRevenue
      [⟨1, "Alice", 10, .paid, "2024-01-01T00:00:00Z"⟩,
       ⟨2, "Bob", 20, .pending, "2024-01-02T00:00:00Z"⟩]
      ⟨none, .all, some 15⟩ = 20 := by
  show (0 : ℚ) + 20 = 20
  norm_num

/-- Claim C1: for every orders list `O` and filter criteria `C`, the
computed `filteredOrders O C` (the `visibleOrders` of the query) is a
permutation of the sublist of `O` passing the filter — hence a subset of
`O` containing exactly the orders that pass all three predicates:
case-insensitive substring match of the search text in `customerName`
when the search text is set and non-empty, status equality when the
status filter is not `all`, and `total` at least the minimum when a
minimum total is set — arranged in descending order of `createdAt` under
lexicographic string comparison. -/
theorem visibleOrders_spec (O : List Order) (C : FilterCriteria) :
    (filteredOrders O C).Perm (O.filter (passesFilter C))
    ∧ (∀ o : Order, o ∈ filteredOrders O C ↔
        o ∈ O
        ∧ (searchTruthy C.search = true →
            lowerContains (C.search.getD "") o.customerName = true)
        ∧ (∀ st, C.statusFilter = .only st → o.status = st)
        ∧ (∀ q, C.minTotal = some q → q ≤ o.total))
    ∧ (filteredOrders O C).Sorted descCreated := by
  refine ⟨sortOrders_perm _, fun o => ?_, sorted_sortOrders _⟩
  rw [show filteredOrders O C = sortOrders (O.filter (passesFilter C)) from rfl,
    (sortOrders_perm _).mem_iff, List.mem_filter, passesFilter_eq_true_iff,
    searchRejects_eq_false_iff, statusRejects_eq_false_iff,
    minTotalRejects_eq_false_iff]

theorem foldl_add_total (l : List Order) (a : ℚ) :
    l.foldl (fun sum o => sum + o.total) a = a + (l.map Order.total).sum := by
  induction l generalizing a with
  | nil => simp
  | cons b t ih => simp [ih, add_assoc]

/-- Claim C4: for every orders list `O` and criteria `C`, `totalRevenue`
equals exactly the sum of `total` over the filtered `filteredOrders`
sequence; for the empty orders list and any criteria, `filteredOrders`
is empty and `totalRevenue` is `0`. -/
theorem totalRevenue_spec (O : List Order) (C : FilterCriteria) :
    totalRevenue O C = ((filteredOrders O C).map Order.total).sum
    ∧ filteredOrders [] C = []
    ∧ totalRevenue [] C = 0 := by
  refine ⟨?_, rfl, rfl⟩
  unfold totalRevenue
  rw [foldl_add_total, zero_add]

/-- State of the `useOrders` store: the three `useState` cells `orders`,
`loading`, `error` of the source. -/
structure StoreState where
  orders : List Order
  loading : Bool
  error : Option String
deriving DecidableEq

/-- Initial store state: `useState([])`, `useState(false)`,
`useState(undefined)`. -/
def initialStore : StoreState := ⟨[], false, none⟩

/-- Outcome of one fetch: the promise resolves with parsed data or
rejects with an error (carried as an opaque string). -/
inductive FetchResult
  | ok (data : List Order)
  | fail (err : String)
deriving DecidableEq

/-- Observable side effects of a store transition: a record sent to the
diagnostics sink (`console.error`) or a new network request. -/
inductive Effect
  | logError (err : String)
  | fetchRequest
deriving DecidableEq

/-- Synchronous part of `fetchOrders`: `setLoading(true)` before the
request is issued. -/
def fetchStart (s : StoreState) : StoreState := { s with loading := true }

/-- Completion of one fetch, from the promise chain of `fetchOrders`:
on success `setOrders(data); setError(undefined)`, on rejection
`console.error(err); setError("Failed to load orders")`, and in both
branches `finally` runs `setLoading(false)`.  The function is total:
every rejection is consumed here and never propagated to the caller. -/
def fetchSettle (s : StoreState) : FetchResult → StoreState × List Effect
  | .ok data => ({ orders := data, loading := false, error := none }, [])
  | .fail e =>
    ({ s with error := some "Failed to load orders", loading := false },
     [.logError e])

/-- Apply a list of fetch completions to the store in resolution order.
Each in-flight request settles independently and unconditionally updates
the state (no cancellation, no sequence-number guard), so only the
resolution order — never the issue order — enters the result. -/
def settleAll (s : StoreState) (rs : List FetchResult) : StoreState :=
  rs.foldl (fun st r => (fetchSettle st r).1) s

/-- Claim C5: every error from the order-source call is caught and
handled totally by `fetchSettle` — the state surfaces the static message
"Failed to load orders" (not the underlying error detail), exactly one
record is sent to the diagnostics sink, and no new fetch request (no
automatic retry) is issued by the failure transition. -/
theorem loadFailure_spec (s : StoreState) (e : String) :
    fetchSettle s (.fail e) =
      ({ s with error := some "Failed to load orders", loading := false },
       [Effect.logError e])
    ∧ Effect.fetchRequest ∉ (fetchSettle s (.fail e)).2 := by
  refine ⟨rfl, ?_⟩
  simp [fetchSettle]

/-- Claim C8: every load that resolves successfully leaves the store
`Ready`: the fetched orders are stored, the loading flag is cleared and
any prior error message is cleared, whatever the prior state was. -/
theorem loadSuccess_spec (s : StoreState) (data : List Order) :
    (fetchSettle s (.ok data)).1 =
      { orders := data, loading := false, error := none } := rfl

/-- Claim C10: a failed load leaves the previously loaded orders list
unchanged — the failure branch sets only the error message and the
loading flag, never the orders. -/
theorem loadFailure_preserves_orders (s : StoreState) (e : String) :
    (fetchSettle s (.fail e)).1.orders = s.orders := rfl

/-- Claim C9: with any number of loads in flight, the completion that
resolves last determines the surfaced state, regardless of issue order
(which never enters `settleAll`): a last-resolved success fixes the
whole state to its data with no error, and a last-resolved failure fixes
the error message and clears loading, keeping the orders of the earlier
completions; no completion is discarded or cancelled. -/
theorem last_resolved_wins (s : StoreState) (rs : List FetchResult)
    (d : List Order) (e : String) :
    settleAll s (rs ++ [.ok d]) =
      { orders := d, loading := false, error := none }
    ∧ (settleAll s (rs ++ [.fail e])).error = some "Failed to load orders"
    ∧ (settleAll s (rs ++ [.fail e])).loading = false
    ∧ (settleAll s (rs ++ [.fail e])).orders = (settleAll s rs).orders := by
  unfold settleAll
  simp [List.foldl_append, fetchSettle]

/-- Events acting on the store: `fetchOrders` starting (from mount or an
explicit `refresh()`), or a pending request settling. -/
inductive StoreEvent
  | start
  | settle (r : FetchResult)

/-- One store transition per event. -/
def storeStep (s : StoreState) : StoreEvent → StoreState
  | .start => fetchStart s
  | .settle r => (fetchSettle s r).1

/-- Run the store from its initial state through a list of events. -/
def runStore (es : List StoreEvent) : StoreState :=
  es.foldl storeStep initialStore

/-- Claim C6, evaluated at the failing trace: mount load, failed
response, user clicks Refresh.  `fetchOrders` sets the loading flag but
never clears the error message on start, so the store reaches a state
that is simultaneously `Loading` and `Failed` — contradicting the
claimed invariant that exactly one load state is active at a time. -/
theorem loading_and_failed_coexist :
    (runStore [.start, .settle (.fail "network down"), .start]).loading = true
    ∧ (runStore [.start, .settle (.fail "network down"), .start]).error
        = some "Failed to load orders" := ⟨rfl, rfl⟩

/-- On every fetch start the error message is left untouched, so a
refresh after a failure yields a state that is both `Loading` and still
carrying the `Failed` message. -/
theorem start_keeps_error (s : StoreState) :
    (fetchStart s).loading = true ∧ (fetchStart s).error = s.error :=
  ⟨rfl, rfl⟩

/-- Render-time state of the component for the `useEffect` with
dependency array `[orders.length]`: the store, the dependency value seen
by the last effect run (`none` before mount), and how many fetch
requests have been issued so far. -/
structure CompState where
  store : StoreState
  effectDeps : Option Nat
  issued : Nat
deriving DecidableEq

/-- React dependency-array semantics of
`useEffect(() => fetchOrders(), [orders.length])`: after a render, if
the current `orders.length` differs from the value recorded at the last
effect run, the effect fires — `fetchOrders` issues a request and sets
the loading flag. -/
def effectCheck (c : CompState) : CompState :=
  if c.effectDeps = some c.store.orders.length then c
  else
    { store := fetchStart c.store,
      effectDeps := some c.store.orders.length,
      issued := c.issued + 1 }

/-- External events hitting the component: a pending request settles, or
the user clicks the Refresh button (`refresh()` calls `fetchOrders`).
Each event re-renders, after which the effect dependency check runs. -/
inductive CompEvent
  | settleReq (r : FetchResult)
  | clickRefresh

/-- One component transition per event, followed by the post-render
dependency check of the effect. -/
def compStep (c : CompState) : CompEvent → CompState
  | .settleReq r => effectCheck { c with store := (fetchSettle c.store r).1 }
  | .clickRefresh =>
    effectCheck { c with store := fetchStart c.store, issued := c.issued + 1 }

/-- Mounting the component: initial render followed by the first effect
run (the startup load). -/
def mountComp : CompState :=
  effectCheck { store := initialStore, effectDeps := none, issued := 0 }

/-- A sample order used in the concrete executions below. -/
def sampleOrder : Order :=
  { id := 1, customerName := "Alice", total := 10, status := .paid,
    createdAt := "2024-01-01T00:00:00Z" }

/-- Claim C7, evaluated at the failing trace: with no user action at
all, mount issues the startup load (one request); its successful
response changes `orders.length` from 0 to 1, which re-fires the effect
keyed on `[orders.length]` and issues a second request.  A load is thus
triggered implicitly by a change in the number of orders, contradicting
the claim that loads happen only at startup and on explicit refresh. -/
theorem implicit_refetch_on_length_change :
    mountComp.issued = 1
    ∧ (compStep mountComp (.settleReq (.ok [sampleOrder]))).issued = 2
    ∧ (compStep mountComp (.settleReq (.ok [sampleOrder]))).store.loading
        = true := ⟨rfl, rfl, rfl⟩

/-- General form of the implicit refetch: whenever a settled response
changes the number of orders away from the last effect dependency value,
the effect fires and a further load is issued without any user action. -/
theorem refetch_when_length_changes (c : CompState) (d : List Order)
    (h : some d.length ≠ c.effectDeps) :
    (compStep c (.settleReq (.ok d))).issued = c.issued + 1 := by
  simp only [compStep, effectCheck, fetchSettle]
  rw [if_neg (fun he => h he.symm)]

/-- Witness for `refetch_when_length_changes`: after the mount settles
with one order, the dependency differs and a new request is issued. -/
theorem refetch_when_length_changes_holds :
    some ([sampleOrder].length) ≠ mountComp.effectDeps
    ∧ (compStep mountComp (.settleReq (.ok [sampleOrder]))).issued
        = mountComp.issued + 1 :=
  ⟨by decide, refetch_when_length_changes mountComp [sampleOrder] (by decide)⟩

/-- React `useMemo` semantics for the `filteredOrders` memo of the
source, whose dependency array is `[orders]` only: on a re-render the
memo recomputes exactly when `orders` changed; otherwise the value
memoized on the previous render (`prevValue`, computed from the previous
criteria) is returned unchanged. -/
def memoFilteredOrders (prevDeps prevValue : List Order)
    (orders : List Order) (c : FilterCriteria) : List Order :=
  if orders = prevDeps then prevValue else filteredOrders orders c

/-- Criteria of the first render: no filter set. -/
def noCriteria : FilterCriteria := ⟨none, .all, none⟩

/-- Criteria after the user types a search text. -/
def searchZzz : FilterCriteria := ⟨some "zzz", .all, none⟩

/-- Claim C2, evaluated at the failing input: with one loaded order, the
user changes the search text from unset to "zzz" while `orders` is
unchanged; the memo keyed on `[orders]` keeps returning the previous
value `[sampleOrder]`, while the filter pipeline applied to the current
criteria returns `[]`.  The displayed view therefore reflects stale
criteria, contradicting the claim that it is recomputed on every
criteria change. -/
theorem stale_criteria_displayed :
    memoFilteredOrders [sampleOrder] (filteredOrders [sampleOrder] noCriteria)
        [sampleOrder] searchZzz = [sampleOrder]
    ∧ filteredOrders [sampleOrder] searchZzz = []
    ∧ ([sampleOrder] : List Order) ≠ [] := by
  refine ⟨?_, by decide, by decide⟩
  decide

/-- Two orders with equal `createdAt` timestamps. -/
def tieA : Order :=
  { id := 1, customerName := "Alice", total := 10, status := .paid,
    createdAt := "2024-01-01T00:00:00Z" }

/-- Second order of the tie, distinct from `tieA` in every other field. -/
def tieB : Order :=
  { id := 2, customerName := "Bob", total := 20, status := .pending,
    createdAt := "2024-01-01T00:00:00Z" }

/-- Claim C3, evaluated at the failing input: on two orders with equal
`createdAt` the source comparator `a.createdAt > b.createdAt ? -1 : 1`
returns 1 in both argument orders — it claims each of the two equal
timestamps sorts after the other instead of treating them as equal
(returning 0), so tie order is not the stable one determined by a
comparator that reports equality. -/
theorem comparator_claims_ties_unequal :
    tieA.createdAt = tieB.createdAt
    ∧ orderCmp tieA tieB = 1 ∧ orderCmp tieB tieA = 1
    ∧ orderCmp tieA tieB ≠ 0 := by
  refine ⟨rfl, ?_, ?_, ?_⟩ <;> decide

/-- The comparator never returns 0 and never crashes: on every pair of
orders, equal timestamps included, it totals to 1 (each claimed after
the other). -/
theorem orderCmp_of_eq_createdAt (a b : Order)
    (h : a.createdAt = b.createdAt) :
    orderCmp a b = 1 ∧ orderCmp b a = 1 := by
  have hlt : strLt a.createdAt b.createdAt = false := by
    rw [h]
    exact charListLt_irrefl _
  have hlt2 : strLt b.createdAt a.createdAt = false := by
    rw [h]
    exact charListLt_irrefl _
  unfold orderCmp
  rw [hlt, hlt2]
  exact ⟨rfl, rfl⟩

/-- Witness for `orderCmp_of_eq_createdAt` at the concrete tie pair. -/
theorem orderCmp_of_eq_createdAt_holds :
    tieA.createdAt = tieB.createdAt
    ∧ orderCmp tieA tieB = 1 ∧ orderCmp tieB tieA = 1 :=
  ⟨rfl, orderCmp_of_eq_createdAt tieA tieB rfl⟩

end OrdersView
